import Mathlib

/-!
EMI register decoding (light-modbus/emi-utils.c)

A shallow embedding of the register decoders of `emi-utils.c`:
`scaleInt`, `getDoubleFromUInt16`, `getDoubleFromUInt32` and `getTime`,
together with the byte swaps they call and the packed clock record of
`emi-utils.h`.

Conventions of the embedding
* a byte is a natural number below 256, a block of memory is a `List Nat`
  read through `byteAt`, which reduces modulo 256;
* the host is little-endian: a `uint16_t` or `uint32_t` object is loaded from
  its bytes with the least significant byte first;
* `modbus_read_input_registers` is declared in `light-modbus-rtu.h`, which is
  not part of the decoded sources, so it is a parameter `read`: it receives
  the transport context, the three integer arguments and the prior content of
  the destination memory, and yields the return code, the content of the
  destination memory after the call and the context after the call;
* `pow` of the C library is a parameter as well;
* a `double` is a signed significand with a binary exponent, products are
  rounded to 53 significant bits, to nearest with ties to even.
-/

namespace EmiUtils

-- ---------------------------------------------------------------------------
-- Memory and machine integers
-- ---------------------------------------------------------------------------

/-- The byte stored at offset `i` of a block of memory. A block is as long as
the object it holds; an offset beyond it reads as `0`. -/
def byteAt (mem : List Nat) (i : Nat) : Nat :=
  mem.getD i 0 % 256

/-- Load of a `uint16_t` object at offset `off` on a little-endian host. -/
def loadU16 (mem : List Nat) (off : Nat) : Nat :=
  byteAt mem off + 256 * byteAt mem (off + 1)

/-- Load of a `uint32_t` object at offset `off` on a little-endian host. -/
def loadU32 (mem : List Nat) (off : Nat) : Nat :=
  byteAt mem off + 256 * byteAt mem (off + 1) + 65536 * byteAt mem (off + 2)
    + 16777216 * byteAt mem (off + 3)

/-- The 16-bit byte swap of `byteswap.h`:
`((x >> 8) & 0xff) | ((x & 0xff) << 8)`. -/
def __bswap_16 (x : Nat) : Nat :=
  ((x >>> 8) &&& 0xff) ||| ((x &&& 0xff) <<< 8)

/-- The 32-bit byte swap of `byteswap.h`:
`((x & 0xff000000) >> 24) | ((x & 0x00ff0000) >> 8) | ((x & 0x0000ff00) << 8)
 | ((x & 0x000000ff) << 24)`. -/
def __bswap_32 (x : Nat) : Nat :=
  ((x &&& 0xff000000) >>> 24) ||| ((x &&& 0x00ff0000) >>> 8) |||
    ((x &&& 0x0000ff00) <<< 8) ||| ((x &&& 0x000000ff) <<< 24)

/-- Conversion of an unsigned 16- or 32-bit value to the 32-bit `int`
parameter `num` of `scaleInt`: values from `2^31` on wrap to negative ones. -/
def toInt (u : Nat) : Int :=
  if u % 2 ^ 32 < 2 ^ 31 then ((u % 2 ^ 32 : Nat) : Int)
  else ((u % 2 ^ 32 : Nat) : Int) - 2 ^ 32

-- ---------------------------------------------------------------------------
-- Doubles
-- ---------------------------------------------------------------------------

/-- A finite `double`: the number `m * 2 ^ e`. The exponent is not bounded;
the decoders stay far inside the range of binary64 (their integers are below
`2^32` in magnitude and their scales lie between `-128` and `127`). -/
structure Double where
  m : Int
  e : Int
deriving DecidableEq

/-- The number a double stands for. -/
def Double.toRat (d : Double) : ℚ :=
  (d.m : ℚ) * (2 : ℚ) ^ d.e

/-- The quotient `a / 2 ^ k` rounded to the nearest integer, ties to even. -/
def roundShift (a k : Nat) : Nat :=
  let q := a / 2 ^ k
  let r := a % 2 ^ k
  if 2 * r < 2 ^ k then q
  else if 2 ^ k < 2 * r then q + 1
  else if q % 2 = 0 then q else q + 1

/-- The number of low bits `a` has beyond 53 significant bits. -/
def excessBits : Nat → Nat → Nat
  | 0, _ => 0
  | fuel + 1, a => if a < 2 ^ 53 then 0 else excessBits fuel (a / 2) + 1

/-- Rounding of `M * 2 ^ E` to a 53-bit significand, to nearest, ties to
even. -/
def round53 (M E : Int) : Double :=
  let a := M.natAbs
  if a < 2 ^ 53 then ⟨M, E⟩
  else
    let k := excessBits a a
    ⟨M.sign * (roundShift a k : Int), E + (k : Int)⟩

/-- Conversion of an integer to `double`. -/
def Double.ofInt (n : Int) : Double :=
  round53 n 0

/-- The product of two doubles, rounded. -/
def Double.mul (a b : Double) : Double :=
  round53 (a.m * b.m) (a.e + b.e)

/-- The double `3602879701896397 * 2^-55`, the binary64 value nearest to
one tenth. -/
def tenth : Double :=
  ⟨3602879701896397, -55⟩

-- ---------------------------------------------------------------------------
-- The transport collaborator
-- ---------------------------------------------------------------------------

/-- What one call of `modbus_read_input_registers` leaves behind. -/
structure ReadResult (σ : Type) where
  /-- The `int` the call returns. -/
  rc : Int
  /-- The content of the destination memory after the call. -/
  dest : List Nat
  /-- The transport context after the call. -/
  ctx : σ

/-- The type of `modbus_read_input_registers (ctx, address, nb, size, dest)`;
the last argument is the content the destination memory has before the
call. -/
abbrev ReadFn (σ : Type) :=
  σ → Nat → Nat → Nat → List Nat → ReadResult σ

-- ---------------------------------------------------------------------------
-- emi-utils.c
-- ---------------------------------------------------------------------------

/-- `double scaleInt(int num, int scaler)`. -/
def scaleInt (pow : Double → Double → Double) (num : Int) (scaler : Int) : Double :=
  if scaler = 0 then
    -- No effect
    Double.ofInt num
  else
    Double.mul (Double.ofInt num) (pow (Double.ofInt 10) (Double.ofInt scaler))

/-- What a scaled-value decoder leaves behind: its return value, the content
of `*res` and the transport context. -/
structure DecodeResult (σ : Type) where
  rc : Int
  res : Double
  ctx : σ

/-- `int getDoubleFromUInt16(modbus_t *ctx, uint16_t registerAddress,
signed char scaler, double *res)`. `buffer` is the content of the
uninitialised local before the read, `res` the content of `*res` before the
call. -/
def getDoubleFromUInt16 {σ : Type} (read : ReadFn σ) (pow : Double → Double → Double)
    (ctx : σ) (registerAddress : Nat) (scaler : Int) (buffer : List Nat) (_res : Double) :
    DecodeResult σ :=
  let r := read ctx registerAddress 1 2 buffer
  let res := scaleInt pow (toInt (__bswap_16 (loadU16 r.dest 0))) scaler
  ⟨r.rc, res, r.ctx⟩

/-- `int getDoubleFromUInt32(modbus_t *ctx, uint16_t registerAddress,
signed char scaler, double *res)`. -/
def getDoubleFromUInt32 {σ : Type} (read : ReadFn σ) (pow : Double → Double → Double)
    (ctx : σ) (registerAddress : Nat) (scaler : Int) (buffer : List Nat) (_res : Double) :
    DecodeResult σ :=
  let r := read ctx registerAddress 1 4 buffer
  let res := scaleInt pow (toInt (__bswap_32 (loadU32 r.dest 0))) scaler
  ⟨r.rc, res, r.ctx⟩

/-- The packed clock record of `emi-utils.h`. -/
structure emi_clock_t where
  year : Nat
  month : Nat
  day : Nat
  weekday : Nat
  hour : Nat
  minute : Nat
  second : Nat
  hundredthOfSecond : Nat
  deviation : Nat
  clockStatus : Nat
deriving DecidableEq

/-- The value of `sizeof(emi_clock_t)`: the sizes of the ten fields, without
padding. -/
def sizeof_emi_clock_t : Nat :=
  2 + 1 + 1 + 1 + 1 + 1 + 1 + 1 + 2 + 1

/-- The record a block of memory holds when it is accessed as a packed
`emi_clock_t` on a little-endian host. -/
def emi_clock_t.ofMemory (mem : List Nat) : emi_clock_t where
  year := loadU16 mem 0
  month := byteAt mem 2
  day := byteAt mem 3
  weekday := byteAt mem 4
  hour := byteAt mem 5
  minute := byteAt mem 6
  second := byteAt mem 7
  hundredthOfSecond := byteAt mem 8
  deviation := loadU16 mem 9
  clockStatus := byteAt mem 11

/-- `emi_clock_t *getTime(modbus_t *ctx)`. `heap` is the content of the
freshly allocated block before the read. The statement `if (rc != 0) { }` has
an empty body and is left out; the function yields the record the returned
pointer refers to, and the transport context. -/
def getTime {σ : Type} (read : ReadFn σ) (ctx : σ) (heap : List Nat) : emi_clock_t × σ :=
  let r := read ctx 0x0001 1 sizeof_emi_clock_t heap
  let emiClock := emi_clock_t.ofMemory r.dest
  let emiClock := { emiClock with year := __bswap_16 emiClock.year }
  let emiClock := { emiClock with deviation := __bswap_16 emiClock.deviation }
  (emiClock, r.ctx)

-- ---------------------------------------------------------------------------
-- Concrete transports
-- ---------------------------------------------------------------------------

/-- A transport without state whose read returns `rc` and fills the
destination with `bytes`. -/
def deliver (rc : Int) (bytes : List Nat) : ReadFn Unit :=
  fun c _ _ _ _ => ⟨rc, bytes, c⟩

/-- A transport without state whose read returns `rc` and leaves the
destination as it found it. -/
def untouched (rc : Int) : ReadFn Unit :=
  fun c _ _ _ dest => ⟨rc, dest, c⟩

/-- A `pow` that returns the double `p` whatever its arguments. -/
def powConst (p : Double) : Double → Double → Double :=
  fun _ _ => p

/-- A `pow` that returns the double nearest to one tenth, as the C library
does for `pow(10, -1)`. -/
def powTenth : Double → Double → Double :=
  powConst tenth

/-- One request made of the transport: the three integer arguments of
`modbus_read_input_registers`. -/
structure ReadRequest where
  address : Nat
  nb : Nat
  size : Nat
deriving DecidableEq

/-- A transport whose context is the list of the requests made of it so far:
each read appends its request, and answers with the return code and the
destination content that `respond` gives. -/
def logged (respond : ReadRequest → List Nat → Int × List Nat) : ReadFn (List ReadRequest) :=
  fun log address nb size dest =>
    ⟨(respond ⟨address, nb, size⟩ dest).1, (respond ⟨address, nb, size⟩ dest).2,
      log ++ [⟨address, nb, size⟩]⟩

/-- A transport without state whose read returns `rc` and delivers only the
bytes `delivered`: they overwrite the start of the destination, the rest of
which stays as it was. -/
def shortRead (rc : Int) (delivered : List Nat) : ReadFn Unit :=
  fun c _ _ _ dest => ⟨rc, delivered ++ dest.drop delivered.length, c⟩

/-- The wire form of a clock record: its fields in order, year and deviation
written big-endian. -/
def emi_clock_t.toWire (c : emi_clock_t) : List Nat :=
  [c.year / 256, c.year % 256, c.month, c.day, c.weekday, c.hour, c.minute, c.second,
    c.hundredthOfSecond, c.deviation / 256, c.deviation % 256, c.clockStatus]

/-- Modelled from the spec: `getOctetString` is declared in `emi-utils.h` and
defined nowhere in the sources. After the spec, it reads the requested number
`nb` of octets at the address through the transport; when the transport
reports failure it propagates the failure and returns no content; otherwise
it returns the `nb` octets read as a sequence of exactly that length. Which
return codes mean failure is not said, so `failed` is a parameter; the count
argument of the read is `1`, as in the decoders that are defined. `heap` is
the content of the destination before the read. -/
def getOctetString {σ : Type} (read : ReadFn σ) (failed : Int → Bool) (ctx : σ)
    (registerAddress : Nat) (nb : Nat) (heap : List Nat) : Except Int (List Nat) × σ :=
  let r := read ctx registerAddress 1 nb heap
  if failed r.rc then
    (Except.error r.rc, r.ctx)
  else
    (Except.ok ((List.range nb).map (byteAt r.dest)), r.ctx)

-- ---------------------------------------------------------------------------
-- Byte swaps in arithmetic form
-- ---------------------------------------------------------------------------

theorem and_mask_shift (x n k : Nat) :
    x &&& ((2 ^ n - 1) <<< k) = ((x >>> k) % 2 ^ n) <<< k := by
  apply Nat.eq_of_testBit_eq
  intro j
  simp only [Nat.testBit_and, Nat.testBit_shiftLeft, Nat.testBit_two_pow_sub_one,
    Nat.testBit_mod_two_pow, Nat.testBit_shiftRight]
  by_cases hj : k ≤ j
  · have hk : k + (j - k) = j := by omega
    simp [hj, hk, Bool.and_comm]
  · simp [hj]

theorem and_byte0 (x : Nat) : x &&& 0xff = x % 256 := by
  have h := and_mask_shift x 8 0
  simpa using h

theorem and_byte1 (x : Nat) : x &&& 0xff00 = (x / 256 % 256) * 256 := by
  have h := and_mask_shift x 8 8
  simpa [Nat.shiftLeft_eq, Nat.shiftRight_eq_div_pow] using h

theorem and_byte2 (x : Nat) : x &&& 0xff0000 = (x / 65536 % 256) * 65536 := by
  have h := and_mask_shift x 8 16
  simpa [Nat.shiftLeft_eq, Nat.shiftRight_eq_div_pow] using h

theorem and_byte3 (x : Nat) : x &&& 0xff000000 = (x / 16777216 % 256) * 16777216 := by
  have h := and_mask_shift x 8 24
  simpa [Nat.shiftLeft_eq, Nat.shiftRight_eq_div_pow] using h

theorem lor_disjoint (a b i : Nat) (h : b < 2 ^ i) : a * 2 ^ i ||| b = a * 2 ^ i + b := by
  rw [Nat.mul_comm]
  exact (Nat.mul_add_lt_is_or h a).symm

/-- The 16-bit swap exchanges the two low bytes of its argument. -/
theorem bswap16_arith (x : Nat) :
    __bswap_16 x = (x % 256) * 256 + x / 256 % 256 := by
  unfold __bswap_16
  rw [and_byte0, and_byte0, Nat.shiftRight_eq_div_pow, Nat.shiftLeft_eq, Nat.lor_comm]
  have h1 : x / 2 ^ 8 % 256 < 2 ^ 8 := by omega
  rw [lor_disjoint _ _ 8 h1]
  omega

/-- The 32-bit swap reverses the four low bytes of its argument. -/
theorem bswap32_arith (x : Nat) :
    __bswap_32 x = (x % 256) * 16777216 + (x / 256 % 256) * 65536
      + (x / 65536 % 256) * 256 + x / 16777216 % 256 := by
  unfold __bswap_32
  rw [and_byte0, and_byte1, and_byte2, and_byte3]
  simp only [Nat.shiftRight_eq_div_pow, Nat.shiftLeft_eq]
  have e1 : x / 16777216 % 256 * 16777216 / 2 ^ 24 = x / 16777216 % 256 := by omega
  have e2 : x / 65536 % 256 * 65536 / 2 ^ 8 = (x / 65536 % 256) * 2 ^ 8 := by omega
  have e3 : x / 256 % 256 * 256 * 2 ^ 8 = (x / 256 % 256) * 2 ^ 16 := by omega
  rw [e1, e2, e3]
  have h0 : x / 16777216 % 256 < 2 ^ 8 := by omega
  rw [Nat.lor_comm (x / 16777216 % 256), lor_disjoint _ _ 8 h0]
  have h1 : x / 65536 % 256 * 2 ^ 8 + x / 16777216 % 256 < 2 ^ 16 := by omega
  rw [Nat.lor_comm _ (x / 256 % 256 * 2 ^ 16), lor_disjoint _ _ 16 h1]
  have h2 : x / 256 % 256 * 2 ^ 16 + (x / 65536 % 256 * 2 ^ 8 + x / 16777216 % 256)
      < 2 ^ 24 := by
    omega
  rw [Nat.lor_comm _ (x % 256 * 2 ^ 24), lor_disjoint _ _ 24 h2]
  omega

theorem bswap16_bytes (lo hi : Nat) (h0 : lo < 256) (h1 : hi < 256) :
    __bswap_16 (lo + 256 * hi) = 256 * lo + hi := by
  rw [bswap16_arith]
  omega

theorem bswap32_bytes (c0 c1 c2 c3 : Nat) (h0 : c0 < 256) (h1 : c1 < 256) (h2 : c2 < 256)
    (h3 : c3 < 256) :
    __bswap_32 (c0 + 256 * c1 + 65536 * c2 + 16777216 * c3)
      = 16777216 * c0 + 65536 * c1 + 256 * c2 + c3 := by
  rw [bswap32_arith]
  omega

theorem loadU16_pair (b0 b1 : Nat) (h0 : b0 < 256) (h1 : b1 < 256) :
    loadU16 [b0, b1] 0 = b0 + 256 * b1 := by
  simp [loadU16, byteAt, Nat.mod_eq_of_lt h0, Nat.mod_eq_of_lt h1]

theorem loadU32_quad (b0 b1 b2 b3 : Nat) (h0 : b0 < 256) (h1 : b1 < 256) (h2 : b2 < 256)
    (h3 : b3 < 256) :
    loadU32 [b0, b1, b2, b3] 0 = b0 + 256 * b1 + 65536 * b2 + 16777216 * b3 := by
  simp [loadU32, byteAt, Nat.mod_eq_of_lt h0, Nat.mod_eq_of_lt h1, Nat.mod_eq_of_lt h2,
    Nat.mod_eq_of_lt h3]

theorem bswap16_load (b0 b1 : Nat) (h0 : b0 < 256) (h1 : b1 < 256) :
    __bswap_16 (loadU16 [b0, b1] 0) = 256 * b0 + b1 := by
  rw [loadU16_pair b0 b1 h0 h1, bswap16_arith]
  omega

theorem bswap32_load (b0 b1 b2 b3 : Nat) (h0 : b0 < 256) (h1 : b1 < 256) (h2 : b2 < 256)
    (h3 : b3 < 256) :
    __bswap_32 (loadU32 [b0, b1, b2, b3] 0)
      = 2 ^ 24 * b0 + 2 ^ 16 * b1 + 2 ^ 8 * b2 + b3 := by
  rw [loadU32_quad b0 b1 b2 b3 h0 h1 h2 h3, bswap32_arith]
  omega

-- ---------------------------------------------------------------------------
-- C1
-- ---------------------------------------------------------------------------

/-- C1: for wire bytes loaded into a word on the little-endian host, the
16-bit swap yields `256*b0 + b1` and the 32-bit swap yields
`2^24*b0 + 2^16*b1 + 2^8*b2 + b3`, the big-endian value of the wire bytes. -/
theorem bswap_yields_big_endian_value (b0 b1 b2 b3 : Nat) (h0 : b0 < 256) (h1 : b1 < 256)
    (h2 : b2 < 256) (h3 : b3 < 256) :
    __bswap_16 (loadU16 [b0, b1] 0) = 256 * b0 + b1 ∧
      __bswap_32 (loadU32 [b0, b1, b2, b3] 0)
        = 2 ^ 24 * b0 + 2 ^ 16 * b1 + 2 ^ 8 * b2 + b3 :=
  ⟨bswap16_load b0 b1 h0 h1, bswap32_load b0 b1 b2 b3 h0 h1 h2 h3⟩

/-- C1 at the wire bytes `12 34 56 78`. -/
theorem bswap_yields_big_endian_value_witness :
    __bswap_16 (loadU16 [0x12, 0x34] 0) = 0x1234 ∧
      __bswap_32 (loadU32 [0x12, 0x34, 0x56, 0x78] 0) = 0x12345678 :=
  bswap_yields_big_endian_value 0x12 0x34 0x56 0x78 (by decide) (by decide) (by decide)
    (by decide)


/-- The double `tenth` lies within half a unit in the last place, `2^-57`, of
one tenth. -/
theorem tenth_nearest : |tenth.toRat - 1 / 10| < 1 / 2 ^ 57 := by
  simp only [tenth, Double.toRat]
  norm_num [abs_lt]

theorem two_pow_mod_five (n : Nat) : ((2 : Int) ^ n) % 5 ≠ 0 := by
  induction n with
  | zero => decide
  | succ n ih =>
    rw [pow_succ]
    omega

/-- No double has the value three tenths. -/
theorem Double.toRat_ne_three_tenths (d : Double) : d.toRat ≠ 3 / 10 := by
  obtain ⟨m, e⟩ := d
  intro h
  simp only [Double.toRat] at h
  rcases Int.le_total 0 e with he | he
  · obtain ⟨n, rfl⟩ := Int.eq_ofNat_of_zero_le he
    rw [zpow_natCast] at h
    have h2 : ((10 * (m * 2 ^ n) : Int) : ℚ) = ((3 : Int) : ℚ) := by
      push_cast
      linarith
    have h3 : 10 * (m * 2 ^ n) = (3 : Int) := by exact_mod_cast h2
    omega
  · obtain ⟨n, hn⟩ := Int.eq_ofNat_of_zero_le (Int.neg_nonneg_of_nonpos he)
    have he2 : e = -(n : Int) := by omega
    subst he2
    rw [zpow_neg, zpow_natCast] at h
    have hp : ((2 : ℚ) ^ n) ≠ 0 := by positivity
    have h2 : ((10 * m : Int) : ℚ) = ((3 * 2 ^ n : Int) : ℚ) := by
      push_cast
      field_simp at h
      linarith
    have h3 : 10 * m = 3 * (2 : Int) ^ n := by exact_mod_cast h2
    have h4 := two_pow_mod_five n
    omega

theorem excessBits_spec (fuel : Nat) : ∀ a : Nat, a < 2 ^ (53 + fuel) →
    a < 2 ^ (53 + excessBits fuel a) ∧
      (excessBits fuel a ≠ 0 → 2 ^ (52 + excessBits fuel a) ≤ a) := by
  induction fuel with
  | zero =>
    intro a ha
    simpa [excessBits] using ha
  | succ f ih =>
    intro a ha
    rw [excessBits]
    by_cases h : a < 2 ^ 53
    · rw [if_pos h]
      exact ⟨h, fun h0 => absurd rfl h0⟩
    · rw [if_neg h]
      have ha2 : a / 2 < 2 ^ (53 + f) := by
        have : 2 ^ (53 + (f + 1)) = 2 * 2 ^ (53 + f) := by ring
        omega
      obtain ⟨h1, h2⟩ := ih (a / 2) ha2
      constructor
      · have : 2 ^ (53 + (excessBits f (a / 2) + 1)) = 2 * 2 ^ (53 + excessBits f (a / 2)) := by
          ring
        omega
      · intro _
        by_cases hk : excessBits f (a / 2) = 0
        · rw [hk]
          have : (2 : Nat) ^ (52 + (0 + 1)) = 2 ^ 53 := by norm_num
          omega
        · have h3 := h2 hk
          have : 2 ^ (52 + (excessBits f (a / 2) + 1)) = 2 * 2 ^ (52 + excessBits f (a / 2)) := by
            ring
          omega

theorem roundShift_near (a k : Nat) :
    2 * (roundShift a k * 2 ^ k) ≤ 2 * a + 2 ^ k ∧ 2 * a ≤ 2 * (roundShift a k * 2 ^ k) + 2 ^ k := by
  have hdm := Nat.div_add_mod a (2 ^ k)
  have hpos : 0 < 2 ^ k := by positivity
  have hr := Nat.mod_lt a hpos
  unfold roundShift
  simp only
  generalize a / 2 ^ k = q at *
  generalize a % 2 ^ k = r at *
  generalize 2 ^ k = P at *
  have e1 : (q + 1) * P = P * q + P := by ring
  have e2 : q * P = P * q := by ring
  split_ifs <;> (first | rw [e1] | rw [e2]) <;> generalize P * q = t at * <;> omega

theorem round53_exact (M E : Int) (h : M.natAbs < 2 ^ 53) : round53 M E = ⟨M, E⟩ := by
  simp only [round53, if_pos h]

/-- Rounding to 53 bits moves a number by at most the fraction `2^-53` of its
magnitude. -/
theorem round53_error (M E : Int) :
    |(round53 M E).toRat - (M : ℚ) * 2 ^ E| ≤ |(M : ℚ) * 2 ^ E| / 2 ^ 53 := by
  by_cases h : M.natAbs < 2 ^ 53
  · rw [round53_exact M E h]
    simp only [Double.toRat, sub_self, abs_zero]
    positivity
  · simp only [round53, if_neg h]
    have ha : 2 ^ 53 ≤ M.natAbs := not_lt.mp h
    have hM : (M : ℚ) = (M.sign : ℚ) * (M.natAbs : ℚ) := by
      have hs : ((M.sign * (M.natAbs : Int) : Int) : ℚ) = (M : ℚ) := by
        rw [Int.sign_mul_natAbs M]
      rw [Int.cast_mul, Int.cast_natCast] at hs
      exact hs.symm
    generalize M.natAbs = a at *
    have hfuel : a < 2 ^ (53 + a) :=
      lt_of_lt_of_le (Nat.lt_two_pow a) (Nat.pow_le_pow_right (by norm_num) (by omega))
    obtain ⟨h1, h2⟩ := excessBits_spec a a hfuel
    generalize excessBits a a = k at *
    have hk : k ≠ 0 := by
      intro h0
      rw [h0] at h1
      simp at h1
      omega
    have h3 := h2 hk
    obtain ⟨n1, n2⟩ := roundShift_near a k
    have q1 : 2 * ((roundShift a k : ℚ) * 2 ^ k) ≤ 2 * (a : ℚ) + 2 ^ k := by exact_mod_cast n1
    have q2 : 2 * (a : ℚ) ≤ 2 * ((roundShift a k : ℚ) * 2 ^ k) + 2 ^ k := by exact_mod_cast n2
    have q3 : (2 : ℚ) ^ 52 * 2 ^ k ≤ (a : ℚ) := by
      have h4 : 2 ^ 52 * 2 ^ k ≤ a := by
        rw [← pow_add]
        exact h3
      exact_mod_cast h4
    have hA : (0 : ℚ) ≤ (a : ℚ) := Nat.cast_nonneg a
    simp only [Double.toRat]
    push_cast
    rw [zpow_add₀ (by norm_num : (2 : ℚ) ≠ 0), zpow_natCast, hM]
    generalize (roundShift a k : ℚ) = R at *
    generalize (a : ℚ) = A at *
    generalize ((2 : ℚ) ^ k) = P at *
    generalize (M.sign : ℚ) = s at *
    have e1 : s * R * ((2 : ℚ) ^ E * P) - s * A * 2 ^ E = (s * 2 ^ E) * (R * P - A) := by ring
    have e2 : s * A * (2 : ℚ) ^ E = (s * 2 ^ E) * A := by ring
    rw [e1, e2, abs_mul (s * 2 ^ E) (R * P - A), abs_mul (s * 2 ^ E) A, mul_div_assoc]
    apply mul_le_mul_of_nonneg_left _ (abs_nonneg _)
    rw [abs_of_nonneg hA, abs_le]
    constructor <;> linarith

theorem bswap16_lt (x : Nat) : __bswap_16 x < 65536 := by
  rw [bswap16_arith]
  omega

theorem bswap32_lt (x : Nat) : __bswap_32 x < 4294967296 := by
  rw [bswap32_arith]
  omega

theorem toInt_of_lt (u : Nat) (h : u < 2 ^ 31) : toInt u = (u : Int) := by
  have h1 : u % 2 ^ 32 = u := Nat.mod_eq_of_lt (by omega)
  simp only [toInt, h1, if_pos h]

theorem toInt_of_ge (u : Nat) (h : 2 ^ 31 ≤ u) (h2 : u < 2 ^ 32) :
    toInt u = (u : Int) - 2 ^ 32 := by
  have h1 : u % 2 ^ 32 = u := Nat.mod_eq_of_lt h2
  simp only [toInt, h1, if_neg (not_lt.mpr h)]

theorem Double.ofInt_of_small (n : Int) (h : n.natAbs < 2 ^ 53) : Double.ofInt n = ⟨n, 0⟩ :=
  round53_exact n 0 h

theorem Double.toRat_ofInt (n : Int) (h : n.natAbs < 2 ^ 53) : (Double.ofInt n).toRat = n := by
  rw [Double.ofInt_of_small n h]
  simp [Double.toRat]

/-- The integer a 16-bit decoder passes to `scaleInt` when the read leaves
the wire bytes `b0 b1` in the buffer. -/
theorem num16_of_wire (b0 b1 : Nat) (h0 : b0 < 256) (h1 : b1 < 256) :
    toInt (__bswap_16 (loadU16 [b0, b1] 0)) = ((256 * b0 + b1 : Nat) : Int) := by
  rw [bswap16_load b0 b1 h0 h1]
  exact toInt_of_lt _ (by omega)

/-- The integer the 32-bit decoder passes to `scaleInt` when the read leaves
the wire bytes `b0 b1 b2 b3` in the buffer and `b0` is below `0x80`. -/
theorem num32_of_wire (b0 b1 b2 b3 : Nat) (h0 : b0 < 0x80) (h1 : b1 < 256) (h2 : b2 < 256)
    (h3 : b3 < 256) :
    toInt (__bswap_32 (loadU32 [b0, b1, b2, b3] 0))
      = ((2 ^ 24 * b0 + 2 ^ 16 * b1 + 2 ^ 8 * b2 + b3 : Nat) : Int) := by
  rw [bswap32_load b0 b1 b2 b3 (by omega) h1 h2 h3]
  exact toInt_of_lt _ (by omega)

theorem Double.mul_ofInt_error (n : Int) (h : n.natAbs < 2 ^ 53) (p : Double) :
    |((Double.ofInt n).mul p).toRat - (n : ℚ) * p.toRat|
      ≤ |(n : ℚ) * p.toRat| / 2 ^ 53 := by
  rw [Double.ofInt_of_small n h]
  have key := round53_error (n * p.m) (0 + p.e)
  simp only [zero_add] at key
  have e : ((n * p.m : Int) : ℚ) * 2 ^ p.e = (n : ℚ) * p.toRat := by
    simp only [Double.toRat]
    push_cast
    ring
  rw [e] at key
  simpa [Double.mul] using key

theorem Double.mul_ofInt_exact (n : Int) (h : n.natAbs < 2 ^ 53) (p : Double)
    (hp : (n * p.m).natAbs < 2 ^ 53) :
    ((Double.ofInt n).mul p).toRat = (n : ℚ) * p.toRat := by
  rw [Double.ofInt_of_small n h]
  simp only [Double.mul, zero_add]
  rw [round53_exact _ _ hp]
  simp only [Double.toRat]
  push_cast
  ring

-- ---------------------------------------------------------------------------
-- C2
-- ---------------------------------------------------------------------------

/-- C2 as stated fails: after a successful read of the wire bytes `00 03`
with scale `-1`, no `pow` whatever makes the stored double equal to
`3 * 10^(-1)`; with `pow(10, -1)` the double nearest to one tenth, the stored
double is `5404319552844596 * 2^-54`, which is not even the double nearest to
three tenths. -/
theorem getDoubleFromUInt16_three_tenths_inexact :
    (¬ ∃ pow : Double → Double → Double,
        (getDoubleFromUInt16 (deliver 1 [0x00, 0x03]) pow () 0 (-1) [0, 0]
          (Double.ofInt 0)).res.toRat = 3 * (10 : ℚ) ^ (-1 : Int)) ∧
      (getDoubleFromUInt16 (deliver 1 [0x00, 0x03]) powTenth () 0 (-1) [0, 0]
          (Double.ofInt 0)).res = ⟨5404319552844596, -54⟩ ∧
      |(Double.mk 5404319552844595 (-54)).toRat - 3 / 10|
        < |(Double.mk 5404319552844596 (-54)).toRat - 3 / 10| := by
  refine ⟨?_, by decide, ?_⟩
  · rintro ⟨pow, h⟩
    have h2 : (3 : ℚ) * (10 : ℚ) ^ (-1 : Int) = 3 / 10 := by norm_num
    rw [h2] at h
    exact Double.toRat_ne_three_tenths _ h
  · simp only [Double.toRat]
    norm_num [abs_lt, abs_of_pos, abs_of_neg]

/-- C2, amended: after a read that leaves the wire bytes `b0 b1` in the
buffer, `getDoubleFromUInt16` stores exactly `256*b0 + b1` when the scale is
`0`; otherwise it stores the binary64 product of `256*b0 + b1` and the double
`p` that `pow(10, s)` returns, which lies within the fraction `2^-53` of
`(256*b0 + b1) * p`, and equals it when `(256*b0 + b1)` times the significand
of `p` is below `2^53` in magnitude; the wire bytes `00 64` with scale `-1`
give `10` when `pow(10, -1)` is the double nearest to one tenth. -/
theorem getDoubleFromUInt16_stores_rounded_product {σ : Type} (read : ReadFn σ)
    (pow : Double → Double → Double) (ctx : σ) (registerAddress : Nat) (s : Int)
    (buffer : List Nat) (res : Double) (b0 b1 : Nat) (h0 : b0 < 256) (h1 : b1 < 256)
    (hread : (read ctx registerAddress 1 2 buffer).dest = [b0, b1]) :
    (s = 0 →
      (getDoubleFromUInt16 read pow ctx registerAddress s buffer res).res.toRat
        = ((256 * b0 + b1 : Nat) : ℚ)) ∧
    (s ≠ 0 →
      |(getDoubleFromUInt16 read pow ctx registerAddress s buffer res).res.toRat
          - ((256 * b0 + b1 : Nat) : ℚ) * (pow (Double.ofInt 10) (Double.ofInt s)).toRat|
        ≤ |((256 * b0 + b1 : Nat) : ℚ) * (pow (Double.ofInt 10) (Double.ofInt s)).toRat|
            / 2 ^ 53) ∧
    (s ≠ 0 →
      (((256 * b0 + b1 : Nat) : Int) * (pow (Double.ofInt 10) (Double.ofInt s)).m).natAbs
          < 2 ^ 53 →
      (getDoubleFromUInt16 read pow ctx registerAddress s buffer res).res.toRat
        = ((256 * b0 + b1 : Nat) : ℚ) * (pow (Double.ofInt 10) (Double.ofInt s)).toRat) ∧
    (b0 = 0x00 → b1 = 0x64 → s = -1 → pow (Double.ofInt 10) (Double.ofInt (-1)) = tenth →
      (getDoubleFromUInt16 read pow ctx registerAddress s buffer res).res.toRat = 10) := by
  have hnum := num16_of_wire b0 b1 h0 h1
  have hsmall : (((256 * b0 + b1 : Nat) : Int)).natAbs < 2 ^ 53 := by
    rw [Int.natAbs_ofNat]
    omega
  have hout : (getDoubleFromUInt16 read pow ctx registerAddress s buffer res).res
      = scaleInt pow ((256 * b0 + b1 : Nat) : Int) s := by
    simp only [getDoubleFromUInt16, hread, hnum]
  rw [hout]
  refine ⟨?_, ?_, ?_, ?_⟩
  · intro hs
    rw [scaleInt, if_pos hs, Double.toRat_ofInt _ hsmall]
    simp
  · intro hs
    rw [scaleInt, if_neg hs]
    have key := Double.mul_ofInt_error _ hsmall (pow (Double.ofInt 10) (Double.ofInt s))
    simpa using key
  · intro hs hp
    rw [scaleInt, if_neg hs]
    have key := Double.mul_ofInt_exact _ hsmall (pow (Double.ofInt 10) (Double.ofInt s)) hp
    simpa using key
  · intro e0 e1 es hp
    subst e0 e1 es
    have hval : scaleInt pow ((256 * 0x00 + 0x64 : Nat) : Int) (-1)
        = ⟨5629499534213120, -49⟩ := by
      rw [scaleInt, if_neg (by decide), hp]
      decide
    rw [hval]
    norm_num [Double.toRat]

/-- C2, amended, at the wire bytes `00 64`: with scale `0` the stored value
is `100`; with scale `-1` and a `pow` that returns the double nearest to one
tenth it is `10`, within the error bound; and at the wire bytes `03 E8` with
scale `2` and a `pow` that returns the double `100`, where the product is
exact. -/
theorem getDoubleFromUInt16_stores_rounded_product_witness :
    (getDoubleFromUInt16 (deliver 1 [0x00, 0x64]) powTenth () 0 0 [0, 0]
      (Double.ofInt 0)).res.toRat = ((256 * 0x00 + 0x64 : Nat) : ℚ) ∧
    |(getDoubleFromUInt16 (deliver 1 [0x00, 0x64]) powTenth () 0 (-1) [0, 0]
        (Double.ofInt 0)).res.toRat
        - ((256 * 0x00 + 0x64 : Nat) : ℚ) * (powTenth (Double.ofInt 10) (Double.ofInt (-1))).toRat|
      ≤ |((256 * 0x00 + 0x64 : Nat) : ℚ) * (powTenth (Double.ofInt 10) (Double.ofInt (-1))).toRat|
          / 2 ^ 53 ∧
    (getDoubleFromUInt16 (deliver 1 [0x00, 0x64]) powTenth () 0 (-1) [0, 0]
      (Double.ofInt 0)).res.toRat = 10 ∧
    (getDoubleFromUInt16 (deliver 1 [0x03, 0xE8]) (powConst ⟨100, 0⟩) () 0 2 [0, 0]
      (Double.ofInt 0)).res.toRat
        = ((256 * 0x03 + 0xE8 : Nat) : ℚ) * (Double.mk 100 0).toRat :=
  ⟨(getDoubleFromUInt16_stores_rounded_product (deliver 1 [0x00, 0x64]) powTenth () 0 0
      [0, 0] (Double.ofInt 0) 0x00 0x64 (by decide) (by decide) rfl).1 rfl,
   (getDoubleFromUInt16_stores_rounded_product (deliver 1 [0x00, 0x64]) powTenth () 0 (-1)
      [0, 0] (Double.ofInt 0) 0x00 0x64 (by decide) (by decide) rfl).2.1 (by decide),
   (getDoubleFromUInt16_stores_rounded_product (deliver 1 [0x00, 0x64]) powTenth () 0 (-1)
      [0, 0] (Double.ofInt 0) 0x00 0x64 (by decide) (by decide) rfl).2.2.2 rfl rfl rfl rfl,
   (getDoubleFromUInt16_stores_rounded_product (deliver 1 [0x03, 0xE8]) (powConst ⟨100, 0⟩)
      () 0 2 [0, 0] (Double.ofInt 0) 0x03 0xE8 (by decide) (by decide) rfl).2.2.1
      (by decide) (by decide)⟩

-- ---------------------------------------------------------------------------
-- C3
-- ---------------------------------------------------------------------------

/-- C3 as stated fails, in two ways. After a successful read of the wire
bytes `00 00 00 03` with scale `-1`, no `pow` whatever makes the stored double
equal to `3 * 10^(-1)`. After a successful read of the wire bytes
`80 00 00 00`, the unsigned register value `2147483648`, with scale `0`,
`getDoubleFromUInt32` stores `-2147483648`: the swapped `uint32_t` is passed
to the `int` parameter of `scaleInt` and wraps. -/
theorem getDoubleFromUInt32_inexact_and_wraps :
    (¬ ∃ pow : Double → Double → Double,
        (getDoubleFromUInt32 (deliver 1 [0x00, 0x00, 0x00, 0x03]) pow () 0 (-1) [0, 0, 0, 0]
          (Double.ofInt 0)).res.toRat = 3 * (10 : ℚ) ^ (-1 : Int)) ∧
      (getDoubleFromUInt32 (deliver 1 [0x80, 0x00, 0x00, 0x00]) powTenth () 0 0 [0, 0, 0, 0]
        (Double.ofInt 0)).res = ⟨-2147483648, 0⟩ ∧
      (getDoubleFromUInt32 (deliver 1 [0x80, 0x00, 0x00, 0x00]) powTenth () 0 0 [0, 0, 0, 0]
        (Double.ofInt 0)).res.toRat
        ≠ ((2 ^ 24 * 0x80 + 2 ^ 16 * 0x00 + 2 ^ 8 * 0x00 + 0x00 : Nat) : ℚ)
            * (10 : ℚ) ^ (0 : Int) := by
  have h : (getDoubleFromUInt32 (deliver 1 [0x80, 0x00, 0x00, 0x00]) powTenth () 0 0
      [0, 0, 0, 0] (Double.ofInt 0)).res = ⟨-2147483648, 0⟩ := by decide
  rw [h]
  refine ⟨?_, rfl, ?_⟩
  · rintro ⟨pow, h3⟩
    have h2 : (3 : ℚ) * (10 : ℚ) ^ (-1 : Int) = 3 / 10 := by norm_num
    rw [h2] at h3
    exact Double.toRat_ne_three_tenths _ h3
  · norm_num [Double.toRat]

/-- The wrap in general: after a read that leaves wire bytes with
`0x80 ≤ b0` in the buffer, `getDoubleFromUInt32` with scale `0` stores the
unsigned register value less `2^32`. -/
theorem getDoubleFromUInt32_scale_zero_high {σ : Type} (read : ReadFn σ)
    (pow : Double → Double → Double) (ctx : σ) (registerAddress : Nat)
    (buffer : List Nat) (res : Double) (b0 b1 b2 b3 : Nat) (hge : 0x80 ≤ b0) (h0 : b0 < 256)
    (h1 : b1 < 256) (h2 : b2 < 256) (h3 : b3 < 256)
    (hread : (read ctx registerAddress 1 4 buffer).dest = [b0, b1, b2, b3]) :
    (getDoubleFromUInt32 read pow ctx registerAddress 0 buffer res).res.toRat
      = ((2 ^ 24 * b0 + 2 ^ 16 * b1 + 2 ^ 8 * b2 + b3 : Nat) : ℚ) - 2 ^ 32 := by
  have hnum : toInt (__bswap_32 (loadU32 [b0, b1, b2, b3] 0))
      = ((2 ^ 24 * b0 + 2 ^ 16 * b1 + 2 ^ 8 * b2 + b3 : Nat) : Int) - 2 ^ 32 := by
    rw [bswap32_load b0 b1 b2 b3 h0 h1 h2 h3]
    exact toInt_of_ge _ (by omega) (by omega)
  have hsmall : (((2 ^ 24 * b0 + 2 ^ 16 * b1 + 2 ^ 8 * b2 + b3 : Nat) : Int) - 2 ^ 32).natAbs
      < 2 ^ 53 := by
    omega
  simp only [getDoubleFromUInt32, hread, hnum, scaleInt, if_true]
  rw [Double.toRat_ofInt _ hsmall]
  push_cast
  ring

/-- C3, amended: after a read that leaves the wire bytes `b0 b1 b2 b3` with
`b0 < 0x80` in the buffer, so that `U = 2^24*b0 + 2^16*b1 + 2^8*b2 + b3` is
below `2^31`, `getDoubleFromUInt32` stores exactly `U` when the scale is `0`;
otherwise it stores the binary64 product of `U` and the double `p` that
`pow(10, s)` returns, which lies within the fraction `2^-53` of `U * p`, and
equals it when `U` times the significand of `p` is below `2^53` in magnitude;
the wire bytes `00 00 03 E8` with scale `2` give `100000` when `pow(10, 2)`
is the double `100`. -/
theorem getDoubleFromUInt32_stores_rounded_product {σ : Type} (read : ReadFn σ)
    (pow : Double → Double → Double) (ctx : σ) (registerAddress : Nat) (s : Int)
    (buffer : List Nat) (res : Double) (b0 b1 b2 b3 : Nat) (h0 : b0 < 0x80) (h1 : b1 < 256)
    (h2 : b2 < 256) (h3 : b3 < 256)
    (hread : (read ctx registerAddress 1 4 buffer).dest = [b0, b1, b2, b3]) :
    (s = 0 →
      (getDoubleFromUInt32 read pow ctx registerAddress s buffer res).res.toRat
        = ((2 ^ 24 * b0 + 2 ^ 16 * b1 + 2 ^ 8 * b2 + b3 : Nat) : ℚ)) ∧
    (s ≠ 0 →
      |(getDoubleFromUInt32 read pow ctx registerAddress s buffer res).res.toRat
          - ((2 ^ 24 * b0 + 2 ^ 16 * b1 + 2 ^ 8 * b2 + b3 : Nat) : ℚ)
              * (pow (Double.ofInt 10) (Double.ofInt s)).toRat|
        ≤ |((2 ^ 24 * b0 + 2 ^ 16 * b1 + 2 ^ 8 * b2 + b3 : Nat) : ℚ)
              * (pow (Double.ofInt 10) (Double.ofInt s)).toRat| / 2 ^ 53) ∧
    (s ≠ 0 →
      (((2 ^ 24 * b0 + 2 ^ 16 * b1 + 2 ^ 8 * b2 + b3 : Nat) : Int)
          * (pow (Double.ofInt 10) (Double.ofInt s)).m).natAbs < 2 ^ 53 →
      (getDoubleFromUInt32 read pow ctx registerAddress s buffer res).res.toRat
        = ((2 ^ 24 * b0 + 2 ^ 16 * b1 + 2 ^ 8 * b2 + b3 : Nat) : ℚ)
            * (pow (Double.ofInt 10) (Double.ofInt s)).toRat) ∧
    (b0 = 0x00 → b1 = 0x00 → b2 = 0x03 → b3 = 0xE8 → s = 2 →
      pow (Double.ofInt 10) (Double.ofInt 2) = Double.ofInt 100 →
      (getDoubleFromUInt32 read pow ctx registerAddress s buffer res).res.toRat = 100000) := by
  have hnum := num32_of_wire b0 b1 b2 b3 h0 h1 h2 h3
  have hsmall : (((2 ^ 24 * b0 + 2 ^ 16 * b1 + 2 ^ 8 * b2 + b3 : Nat) : Int)).natAbs
      < 2 ^ 53 := by
    rw [Int.natAbs_ofNat]
    omega
  have hout : (getDoubleFromUInt32 read pow ctx registerAddress s buffer res).res
      = scaleInt pow ((2 ^ 24 * b0 + 2 ^ 16 * b1 + 2 ^ 8 * b2 + b3 : Nat) : Int) s := by
    simp only [getDoubleFromUInt32, hread, hnum]
  rw [hout]
  refine ⟨?_, ?_, ?_, ?_⟩
  · intro hs
    rw [scaleInt, if_pos hs, Double.toRat_ofInt _ hsmall]
    simp
  · intro hs
    rw [scaleInt, if_neg hs]
    have key := Double.mul_ofInt_error _ hsmall (pow (Double.ofInt 10) (Double.ofInt s))
    simpa using key
  · intro hs hp
    rw [scaleInt, if_neg hs]
    have key := Double.mul_ofInt_exact _ hsmall (pow (Double.ofInt 10) (Double.ofInt s)) hp
    simpa using key
  · intro e0 e1 e2 e3 es hp
    subst e0 e1 e2 e3 es
    have hval : scaleInt pow ((2 ^ 24 * 0x00 + 2 ^ 16 * 0x00 + 2 ^ 8 * 0x03 + 0xE8 : Nat) : Int) 2
        = ⟨100000, 0⟩ := by
      rw [scaleInt, if_neg (by decide), hp]
      decide
    rw [hval]
    norm_num [Double.toRat]

/-- C3, amended, at the wire bytes `00 00 03 E8`: with scale `0` the stored
value is `1000`; with scale `2` and a `pow` that returns the double `100` it
is `100000`, the product is exact and within the error bound. -/
theorem getDoubleFromUInt32_stores_rounded_product_witness :
    (getDoubleFromUInt32 (deliver 1 [0x00, 0x00, 0x03, 0xE8]) (powConst (Double.ofInt 100)) ()
      0 0 [0, 0, 0, 0] (Double.ofInt 0)).res.toRat
        = ((2 ^ 24 * 0x00 + 2 ^ 16 * 0x00 + 2 ^ 8 * 0x03 + 0xE8 : Nat) : ℚ) ∧
    |(getDoubleFromUInt32 (deliver 1 [0x00, 0x00, 0x03, 0xE8]) (powConst (Double.ofInt 100)) ()
        0 2 [0, 0, 0, 0] (Double.ofInt 0)).res.toRat
        - ((2 ^ 24 * 0x00 + 2 ^ 16 * 0x00 + 2 ^ 8 * 0x03 + 0xE8 : Nat) : ℚ)
            * (powConst (Double.ofInt 100) (Double.ofInt 10) (Double.ofInt 2)).toRat|
      ≤ |((2 ^ 24 * 0x00 + 2 ^ 16 * 0x00 + 2 ^ 8 * 0x03 + 0xE8 : Nat) : ℚ)
            * (powConst (Double.ofInt 100) (Double.ofInt 10) (Double.ofInt 2)).toRat| / 2 ^ 53 ∧
    (getDoubleFromUInt32 (deliver 1 [0x00, 0x00, 0x03, 0xE8]) (powConst (Double.ofInt 100)) ()
      0 2 [0, 0, 0, 0] (Double.ofInt 0)).res.toRat = 100000 ∧
    (getDoubleFromUInt32 (deliver 1 [0x00, 0x00, 0x03, 0xE8]) (powConst (Double.ofInt 100)) ()
      0 2 [0, 0, 0, 0] (Double.ofInt 0)).res.toRat
        = ((2 ^ 24 * 0x00 + 2 ^ 16 * 0x00 + 2 ^ 8 * 0x03 + 0xE8 : Nat) : ℚ)
            * (powConst (Double.ofInt 100) (Double.ofInt 10) (Double.ofInt 2)).toRat :=
  ⟨(getDoubleFromUInt32_stores_rounded_product (deliver 1 [0x00, 0x00, 0x03, 0xE8])
      (powConst (Double.ofInt 100)) () 0 0 [0, 0, 0, 0] (Double.ofInt 0) 0x00 0x00 0x03 0xE8
      (by decide) (by decide) (by decide) (by decide) rfl).1 rfl,
   (getDoubleFromUInt32_stores_rounded_product (deliver 1 [0x00, 0x00, 0x03, 0xE8])
      (powConst (Double.ofInt 100)) () 0 2 [0, 0, 0, 0] (Double.ofInt 0) 0x00 0x00 0x03 0xE8
      (by decide) (by decide) (by decide) (by decide) rfl).2.1 (by decide),
   (getDoubleFromUInt32_stores_rounded_product (deliver 1 [0x00, 0x00, 0x03, 0xE8])
      (powConst (Double.ofInt 100)) () 0 2 [0, 0, 0, 0] (Double.ofInt 0) 0x00 0x00 0x03 0xE8
      (by decide) (by decide) (by decide) (by decide) rfl).2.2.2 rfl rfl rfl rfl rfl rfl,
   (getDoubleFromUInt32_stores_rounded_product (deliver 1 [0x00, 0x00, 0x03, 0xE8])
      (powConst (Double.ofInt 100)) () 0 2 [0, 0, 0, 0] (Double.ofInt 0) 0x00 0x00 0x03 0xE8
      (by decide) (by decide) (by decide) (by decide) rfl).2.2.1 (by decide) (by decide)⟩

-- ---------------------------------------------------------------------------
-- C4
-- ---------------------------------------------------------------------------

/-- C4: with scale `0`, `getDoubleFromUInt16` stores the conversion to
`double` of the byte-swapped buffer word, whose value is that integer exactly;
the stored double is the same whatever `pow` is, so the branch taken neither
multiplies nor calls `pow`. -/
theorem getDoubleFromUInt16_scale_zero {σ : Type} (read : ReadFn σ)
    (pow : Double → Double → Double) (ctx : σ) (registerAddress : Nat)
    (buffer : List Nat) (res : Double) :
    (getDoubleFromUInt16 read pow ctx registerAddress 0 buffer res).res
        = Double.ofInt (__bswap_16 (loadU16 (read ctx registerAddress 1 2 buffer).dest 0)) ∧
      (getDoubleFromUInt16 read pow ctx registerAddress 0 buffer res).res.toRat
        = (__bswap_16 (loadU16 (read ctx registerAddress 1 2 buffer).dest 0) : ℚ) ∧
      ∀ pow2 : Double → Double → Double,
        (getDoubleFromUInt16 read pow2 ctx registerAddress 0 buffer res).res
          = (getDoubleFromUInt16 read pow ctx registerAddress 0 buffer res).res := by
  have hlt := bswap16_lt (loadU16 (read ctx registerAddress 1 2 buffer).dest 0)
  have hnum := toInt_of_lt _ (show __bswap_16 (loadU16 (read ctx registerAddress 1 2 buffer).dest 0)
    < 2 ^ 31 by omega)
  have hout : ∀ pw : Double → Double → Double,
      (getDoubleFromUInt16 read pw ctx registerAddress 0 buffer res).res
        = Double.ofInt (__bswap_16 (loadU16 (read ctx registerAddress 1 2 buffer).dest 0)) := by
    intro pw
    simp only [getDoubleFromUInt16, scaleInt, if_true, hnum]
  refine ⟨hout pow, ?_, fun pow2 => by rw [hout pow2, hout pow]⟩
  rw [hout pow, Double.toRat_ofInt]
  · simp
  · rw [Int.natAbs_ofNat]
    omega

-- ---------------------------------------------------------------------------
-- C5
-- ---------------------------------------------------------------------------

/-- C5: when the clock read leaves the twelve bytes `b0 .. b11` in the block,
`getTime` yields the record with year `256*b0 + b1`, month `b2`, day `b3`,
weekday `b4`, hour `b5`, minute `b6`, second `b7`, hundredths `b8`, deviation
`256*b9 + b10` and status `b11`, whatever the values of the bytes. -/
theorem getTime_decodes_block {σ : Type} (read : ReadFn σ) (ctx : σ) (heap : List Nat)
    (b0 b1 b2 b3 b4 b5 b6 b7 b8 b9 b10 b11 : Nat)
    (hb : ∀ b ∈ [b0, b1, b2, b3, b4, b5, b6, b7, b8, b9, b10, b11], b < 256)
    (hread : (read ctx 0x0001 1 sizeof_emi_clock_t heap).dest
      = [b0, b1, b2, b3, b4, b5, b6, b7, b8, b9, b10, b11]) :
    (getTime read ctx heap).1 =
      { year := 256 * b0 + b1, month := b2, day := b3, weekday := b4, hour := b5,
        minute := b6, second := b7, hundredthOfSecond := b8, deviation := 256 * b9 + b10,
        clockStatus := b11 } := by
  have h0 : b0 < 256 := hb b0 (by simp)
  have h1 : b1 < 256 := hb b1 (by simp)
  have h2 : b2 < 256 := hb b2 (by simp)
  have h3 : b3 < 256 := hb b3 (by simp)
  have h4 : b4 < 256 := hb b4 (by simp)
  have h5 : b5 < 256 := hb b5 (by simp)
  have h6 : b6 < 256 := hb b6 (by simp)
  have h7 : b7 < 256 := hb b7 (by simp)
  have h8 : b8 < 256 := hb b8 (by simp)
  have h9 : b9 < 256 := hb b9 (by simp)
  have h10 : b10 < 256 := hb b10 (by simp)
  have h11 : b11 < 256 := hb b11 (by simp)
  have hy : __bswap_16 (b0 + 256 * b1) = 256 * b0 + b1 := by
    rw [bswap16_arith]
    omega
  have hd : __bswap_16 (b9 + 256 * b10) = 256 * b9 + b10 := by
    rw [bswap16_arith]
    omega
  simp only [getTime, hread, emi_clock_t.ofMemory, loadU16, byteAt, List.getD_cons_zero,
    List.getD_cons_succ, Nat.mod_eq_of_lt h0, Nat.mod_eq_of_lt h1, Nat.mod_eq_of_lt h2,
    Nat.mod_eq_of_lt h3, Nat.mod_eq_of_lt h4, Nat.mod_eq_of_lt h5, Nat.mod_eq_of_lt h6,
    Nat.mod_eq_of_lt h7, Nat.mod_eq_of_lt h8, Nat.mod_eq_of_lt h9, Nat.mod_eq_of_lt h10,
    Nat.mod_eq_of_lt h11, hy, hd]

/-- C5 at the block `07 E8 0A 0F 02 0E 1E 05 00 00 00 01`. -/
theorem getTime_decodes_block_witness :
    (getTime (deliver 1 [0x07, 0xE8, 0x0A, 0x0F, 0x02, 0x0E, 0x1E, 0x05, 0x00, 0x00, 0x00, 0x01])
        () [0, 0, 0, 0, 0, 0, 0, 0, 0, 0, 0, 0]).1 =
      { year := 2024, month := 10, day := 15, weekday := 2, hour := 14, minute := 30,
        second := 5, hundredthOfSecond := 0, deviation := 0, clockStatus := 1 } :=
  getTime_decodes_block
    (deliver 1 [0x07, 0xE8, 0x0A, 0x0F, 0x02, 0x0E, 0x1E, 0x05, 0x00, 0x00, 0x00, 0x01]) ()
    [0, 0, 0, 0, 0, 0, 0, 0, 0, 0, 0, 0] 0x07 0xE8 0x0A 0x0F 0x02 0x0E 0x1E 0x05 0x00 0x00 0x00
    0x01 (by decide) rfl

-- ---------------------------------------------------------------------------
-- C6
-- ---------------------------------------------------------------------------

/-- C6 as stated fails: after a read that fails with code `-1` and leaves the
buffer as it was, both decoders return `-1` and still overwrite `*res`, which
held `7`, with the value decoded from the bytes found in the buffer. -/
theorem getDouble_overwrites_res_after_failed_read :
    (getDoubleFromUInt16 (untouched (-1)) powTenth () 0 0 [0x01, 0x00] ⟨7, 0⟩).rc = -1 ∧
      (getDoubleFromUInt16 (untouched (-1)) powTenth () 0 0 [0x01, 0x00] ⟨7, 0⟩).res
        = ⟨256, 0⟩ ∧
      (getDoubleFromUInt16 (untouched (-1)) powTenth () 0 0 [0x01, 0x00] ⟨7, 0⟩).res
        ≠ ⟨7, 0⟩ ∧
      (getDoubleFromUInt32 (untouched (-1)) powTenth () 0 0 [0x01, 0x00, 0x00, 0x00]
        ⟨7, 0⟩).rc = -1 ∧
      (getDoubleFromUInt32 (untouched (-1)) powTenth () 0 0 [0x01, 0x00, 0x00, 0x00]
        ⟨7, 0⟩).res = ⟨16777216, 0⟩ ∧
      (getDoubleFromUInt32 (untouched (-1)) powTenth () 0 0 [0x01, 0x00, 0x00, 0x00]
        ⟨7, 0⟩).res ≠ ⟨7, 0⟩ := by
  decide

/-- C6, amended: whatever code the read returns, a failure code included,
`getDoubleFromUInt16` and `getDoubleFromUInt32` return that code and store in
`*res` the value `scaleInt` computes from the byte-swapped content the buffer
has after the read; the stored value does not depend on what `*res` held
before the call. -/
theorem getDouble_stores_whatever_read_returns {σ : Type} (read : ReadFn σ)
    (pow : Double → Double → Double) (ctx : σ) (registerAddress : Nat) (scaler : Int)
    (buffer : List Nat) (res : Double) :
    ((getDoubleFromUInt16 read pow ctx registerAddress scaler buffer res).rc
        = (read ctx registerAddress 1 2 buffer).rc ∧
      (getDoubleFromUInt16 read pow ctx registerAddress scaler buffer res).res
        = scaleInt pow
            (toInt (__bswap_16 (loadU16 (read ctx registerAddress 1 2 buffer).dest 0))) scaler ∧
      ∀ res2 : Double,
        (getDoubleFromUInt16 read pow ctx registerAddress scaler buffer res2).res
          = (getDoubleFromUInt16 read pow ctx registerAddress scaler buffer res).res) ∧
    ((getDoubleFromUInt32 read pow ctx registerAddress scaler buffer res).rc
        = (read ctx registerAddress 1 4 buffer).rc ∧
      (getDoubleFromUInt32 read pow ctx registerAddress scaler buffer res).res
        = scaleInt pow
            (toInt (__bswap_32 (loadU32 (read ctx registerAddress 1 4 buffer).dest 0))) scaler ∧
      ∀ res2 : Double,
        (getDoubleFromUInt32 read pow ctx registerAddress scaler buffer res2).res
          = (getDoubleFromUInt32 read pow ctx registerAddress scaler buffer res).res) :=
  ⟨⟨rfl, rfl, fun _ => rfl⟩, ⟨rfl, rfl, fun _ => rfl⟩⟩

-- ---------------------------------------------------------------------------
-- C7
-- ---------------------------------------------------------------------------

/-- C7 fails in the code: `getTime` yields the same populated record whatever
code the read returns; after a read that fails with code `-1` and leaves the
allocated block as it was, it yields the record decoded from the bytes found
there, the very record a successful read of these bytes gives. -/
theorem getTime_ignores_return_code {σ : Type} (read : ReadFn σ) (ctx : σ) (heap : List Nat)
    (rc : Int) :
    getTime (fun c a n sz d => { read c a n sz d with rc := rc }) ctx heap
        = getTime read ctx heap ∧
      (getTime (untouched (-1)) ()
          [0x07, 0xE8, 0x0A, 0x0F, 0x02, 0x0E, 0x1E, 0x05, 0x00, 0x00, 0x00, 0x01]).1 =
        { year := 2024, month := 10, day := 15, weekday := 2, hour := 14, minute := 30,
          second := 5, hundredthOfSecond := 0, deviation := 0, clockStatus := 1 } ∧
      (getTime (untouched (-1)) ()
          [0x07, 0xE8, 0x0A, 0x0F, 0x02, 0x0E, 0x1E, 0x05, 0x00, 0x00, 0x00, 0x01]).1 =
        (getTime
          (deliver 1 [0x07, 0xE8, 0x0A, 0x0F, 0x02, 0x0E, 0x1E, 0x05, 0x00, 0x00, 0x00, 0x01])
          () [0, 0, 0, 0, 0, 0, 0, 0, 0, 0, 0, 0]).1 :=
  ⟨rfl, by decide, by decide⟩

-- ---------------------------------------------------------------------------
-- C8
-- ---------------------------------------------------------------------------

/-- C8: the integer `getDoubleFromUInt16` and `getDoubleFromUInt32` return is
the return value of their one call of the read, unchanged, for every return
code, address and scale; the transport context they leave is the one that
call leaves. -/
theorem getDouble_returns_read_code {σ : Type} (read : ReadFn σ)
    (pow : Double → Double → Double) (ctx : σ) (registerAddress : Nat) (scaler : Int)
    (buffer : List Nat) (res : Double) :
    (getDoubleFromUInt16 read pow ctx registerAddress scaler buffer res).rc
        = (read ctx registerAddress 1 2 buffer).rc ∧
      (getDoubleFromUInt32 read pow ctx registerAddress scaler buffer res).rc
        = (read ctx registerAddress 1 4 buffer).rc ∧
      (getDoubleFromUInt16 read pow ctx registerAddress scaler buffer res).ctx
        = (read ctx registerAddress 1 2 buffer).ctx ∧
      (getDoubleFromUInt32 read pow ctx registerAddress scaler buffer res).ctx
        = (read ctx registerAddress 1 4 buffer).ctx :=
  ⟨rfl, rfl, rfl, rfl⟩

-- ---------------------------------------------------------------------------
-- C9, C10
-- ---------------------------------------------------------------------------

/-- C9: the 16-bit byte swap applied twice to a 16-bit value returns it. -/
theorem bswap16_twice (v : Nat) (hv : v < 2 ^ 16) : __bswap_16 (__bswap_16 v) = v := by
  have hlo : v % 256 < 256 := Nat.mod_lt v (by norm_num)
  have hhi : v / 256 < 256 := by omega
  have hsplit : v = v % 256 + 256 * (v / 256) := by omega
  have h1 := bswap16_bytes (v % 256) (v / 256) hlo hhi
  have h2 := bswap16_bytes (v / 256) (v % 256) hhi hlo
  rw [← hsplit] at h1
  rw [h1, show 256 * (v % 256) + v / 256 = v / 256 + 256 * (v % 256) by omega, h2]
  omega

/-- C9 at `0x1234`. -/
theorem bswap16_twice_witness : __bswap_16 (__bswap_16 0x1234) = 0x1234 :=
  bswap16_twice 0x1234 (by decide)

/-- C10: the 32-bit byte swap applied twice to a 32-bit value returns it. -/
theorem bswap32_twice (v : Nat) (hv : v < 2 ^ 32) : __bswap_32 (__bswap_32 v) = v := by
  have h0 : v % 256 < 256 := Nat.mod_lt v (by norm_num)
  have h1 : v / 256 % 256 < 256 := Nat.mod_lt _ (by norm_num)
  have h2 : v / 65536 % 256 < 256 := Nat.mod_lt _ (by norm_num)
  have h3 : v / 16777216 < 256 := by omega
  have hsplit : v = v % 256 + 256 * (v / 256 % 256) + 65536 * (v / 65536 % 256)
      + 16777216 * (v / 16777216) := by
    omega
  have e1 := bswap32_bytes (v % 256) (v / 256 % 256) (v / 65536 % 256) (v / 16777216) h0 h1 h2 h3
  have e2 := bswap32_bytes (v / 16777216) (v / 65536 % 256) (v / 256 % 256) (v % 256) h3 h2 h1 h0
  rw [← hsplit] at e1
  rw [e1, show 16777216 * (v % 256) + 65536 * (v / 256 % 256) + 256 * (v / 65536 % 256)
    + v / 16777216 = v / 16777216 + 256 * (v / 65536 % 256) + 65536 * (v / 256 % 256)
    + 16777216 * (v % 256) by omega, e2]
  omega

/-- C10 at `0x12345678`. -/
theorem bswap32_twice_witness : __bswap_32 (__bswap_32 0x12345678) = 0x12345678 :=
  bswap32_twice 0x12345678 (by decide)

-- ---------------------------------------------------------------------------
-- C11
-- ---------------------------------------------------------------------------

/-- C11 as stated fails: the one read `getTime` makes asks for
`sizeof(emi_clock_t)` bytes, which is `12` and not `10`. -/
theorem getTime_request_is_not_ten_bytes :
    sizeof_emi_clock_t = 12 ∧
      (getTime (logged (fun _ dest => (1, dest))) [] [0, 0, 0, 0, 0, 0, 0, 0, 0, 0, 0, 0]).2
        = [⟨0x0001, 1, 12⟩] ∧
      (getTime (logged (fun _ dest => (1, dest))) [] [0, 0, 0, 0, 0, 0, 0, 0, 0, 0, 0, 0]).2
        ≠ [⟨0x0001, 1, 10⟩] := by
  decide

/-- C11, amended: `getTime` makes exactly one read of the transport, at the
address `0x0001`, with count `1`, asking for exactly `12` bytes, the size of
the packed clock record; whatever the transport answers, the requests made
grow by this one. -/
theorem getTime_requests_clock_block (respond : ReadRequest → List Nat → Int × List Nat)
    (log : List ReadRequest) (heap : List Nat) :
    (getTime (logged respond) log heap).2 = log ++ [⟨0x0001, 1, 12⟩] :=
  rfl

-- ---------------------------------------------------------------------------
-- C12
-- ---------------------------------------------------------------------------

theorem map_byteAt_range (bytes : List Nat) (hb : ∀ b ∈ bytes, b < 256) :
    (List.range bytes.length).map (byteAt bytes) = bytes := by
  apply List.ext_getElem
  · simp
  · intro i h1 h2
    have hlt : bytes[i] < 256 := hb _ (List.getElem_mem h2)
    simp [byteAt, List.getElem?_eq_getElem h2, Nat.mod_eq_of_lt hlt]

/-- C12: when the read does not fail, `getOctetString` returns a sequence of
length exactly `n`, whose octet at each position below `n` is the octet the
read left at that position; it is the block read itself when that has `n`
octets; and for `n = 0` it is the empty sequence, returned without error. -/
theorem getOctetString_length {σ : Type} (read : ReadFn σ) (failed : Int → Bool) (ctx : σ)
    (registerAddress : Nat) (n : Nat) (heap : List Nat)
    (hok : failed (read ctx registerAddress 1 n heap).rc = false) :
    ∃ text : List Nat,
      (getOctetString read failed ctx registerAddress n heap).1 = Except.ok text ∧
      text.length = n ∧
      (∀ i, i < n → text.getD i 0 = byteAt (read ctx registerAddress 1 n heap).dest i) ∧
      ((read ctx registerAddress 1 n heap).dest.length = n →
        (∀ b ∈ (read ctx registerAddress 1 n heap).dest, b < 256) →
        text = (read ctx registerAddress 1 n heap).dest) ∧
      (n = 0 → text = []) := by
  refine ⟨(List.range n).map (byteAt (read ctx registerAddress 1 n heap).dest), ?_, ?_, ?_,
    ?_, ?_⟩
  · simp only [getOctetString, hok]
    rfl
  · simp
  · intro i hi
    have h1 : i < ((List.range n).map (byteAt (read ctx registerAddress 1 n heap).dest)).length := by
      simpa using hi
    rw [List.getD_eq_getElem _ 0 h1]
    simp
  · intro hlen hb
    have key := map_byteAt_range _ hb
    rw [hlen] at key
    exact key
  · intro hn
    subst hn
    rfl

/-- C12 at a read that delivers the three octets `41 42 43`, and at a request
of no octet. -/
theorem getOctetString_length_witness :
    (∃ text : List Nat,
      (getOctetString (deliver 1 [0x41, 0x42, 0x43]) (fun rc => decide (rc < 0)) () 0x0010 3
        [0, 0, 0]).1 = Except.ok text ∧
      text.length = 3 ∧
      (∀ i, i < 3 → text.getD i 0
        = byteAt (deliver 1 [0x41, 0x42, 0x43] () 0x0010 1 3 [0, 0, 0]).dest i) ∧
      ((deliver 1 [0x41, 0x42, 0x43] () 0x0010 1 3 [0, 0, 0]).dest.length = 3 →
        (∀ b ∈ (deliver 1 [0x41, 0x42, 0x43] () 0x0010 1 3 [0, 0, 0]).dest, b < 256) →
        text = (deliver 1 [0x41, 0x42, 0x43] () 0x0010 1 3 [0, 0, 0]).dest) ∧
      (3 = 0 → text = [])) ∧
    (getOctetString (deliver 1 [0x41, 0x42, 0x43]) (fun rc => decide (rc < 0)) () 0x0010 3
      [0, 0, 0]).1 = Except.ok [0x41, 0x42, 0x43] ∧
    (getOctetString (deliver 1 []) (fun rc => decide (rc < 0)) () 0x0010 0 []).1
      = Except.ok [] :=
  ⟨getOctetString_length (deliver 1 [0x41, 0x42, 0x43]) (fun rc => decide (rc < 0)) () 0x0010 3
      [0, 0, 0] rfl,
   rfl, rfl⟩

-- ---------------------------------------------------------------------------
-- C13
-- ---------------------------------------------------------------------------

/-- C13 as stated fails: the one read `getDoubleFromUInt32` makes at the
address `0x0010` has the count `1` and the size `4`, not the count `2`. -/
theorem getDoubleFromUInt32_request_count_is_one :
    (getDoubleFromUInt32 (logged (fun _ dest => (1, dest))) powTenth [] 0x0010 0 [0, 0, 0, 0]
        (Double.ofInt 0)).ctx = [⟨0x0010, 1, 4⟩] ∧
      (getDoubleFromUInt32 (logged (fun _ dest => (1, dest))) powTenth [] 0x0010 0 [0, 0, 0, 0]
        (Double.ofInt 0)).ctx ≠ [⟨0x0010, 2, 4⟩] := by
  decide

/-- C13, amended: `getDoubleFromUInt16` and `getDoubleFromUInt32` each make
exactly one read of the transport per call, at the address of the caller,
with count `1` in both, asking for `2` bytes and for `4` bytes; whatever the
transport answers, the requests made grow by this one. -/
theorem getDouble_requests (respond : ReadRequest → List Nat → Int × List Nat)
    (pow : Double → Double → Double) (log : List ReadRequest) (registerAddress : Nat)
    (scaler : Int) (buffer : List Nat) (res : Double) :
    (getDoubleFromUInt16 (logged respond) pow log registerAddress scaler buffer res).ctx
        = log ++ [⟨registerAddress, 1, 2⟩] ∧
      (getDoubleFromUInt32 (logged respond) pow log registerAddress scaler buffer res).ctx
        = log ++ [⟨registerAddress, 1, 4⟩] :=
  ⟨rfl, rfl⟩

-- ---------------------------------------------------------------------------
-- C14
-- ---------------------------------------------------------------------------

/-- C14 fails in the code: after a read that delivers only the four bytes
`07 E8 0A 0F` of the twelve, `getTime` yields a record all the same, whatever
code the read returns, and the fields from weekday on are decoded from the
bytes the allocated block held before the read, here `AA`. -/
theorem getTime_short_read_uses_heap (rc : Int) :
    (getTime (shortRead rc [0x07, 0xE8, 0x0A, 0x0F]) ()
        [0xAA, 0xAA, 0xAA, 0xAA, 0xAA, 0xAA, 0xAA, 0xAA, 0xAA, 0xAA, 0xAA, 0xAA]).1 =
      { year := 2024, month := 10, day := 15, weekday := 0xAA, hour := 0xAA, minute := 0xAA,
        second := 0xAA, hundredthOfSecond := 0xAA, deviation := 0xAAAA,
        clockStatus := 0xAA } := by
  simp only [getTime, shortRead]
  decide

-- ---------------------------------------------------------------------------
-- C15
-- ---------------------------------------------------------------------------

theorem list_of_length_twelve (b : List Nat) (h : b.length = 12) :
    ∃ b0 b1 b2 b3 b4 b5 b6 b7 b8 b9 b10 b11 : Nat,
      b = [b0, b1, b2, b3, b4, b5, b6, b7, b8, b9, b10, b11] := by
  match b, h with
  | [b0, b1, b2, b3, b4, b5, b6, b7, b8, b9, b10, b11], _ =>
    exact ⟨b0, b1, b2, b3, b4, b5, b6, b7, b8, b9, b10, b11, rfl⟩

/-- The record `getTime` yields when the read leaves the bytes `b0 .. b11`
in the block. -/
theorem getTime_of_dest {σ : Type} (read : ReadFn σ) (ctx : σ) (heap : List Nat)
    (b0 b1 b2 b3 b4 b5 b6 b7 b8 b9 b10 b11 : Nat)
    (hb : ∀ b ∈ [b0, b1, b2, b3, b4, b5, b6, b7, b8, b9, b10, b11], b < 256)
    (hread : (read ctx 0x0001 1 sizeof_emi_clock_t heap).dest
      = [b0, b1, b2, b3, b4, b5, b6, b7, b8, b9, b10, b11]) :
    (getTime read ctx heap).1 =
      { year := 256 * b0 + b1, month := b2, day := b3, weekday := b4, hour := b5,
        minute := b6, second := b7, hundredthOfSecond := b8, deviation := 256 * b9 + b10,
        clockStatus := b11 } := by
  have h0 : b0 < 256 := hb b0 (by simp)
  have h1 : b1 < 256 := hb b1 (by simp)
  have h2 : b2 < 256 := hb b2 (by simp)
  have h3 : b3 < 256 := hb b3 (by simp)
  have h4 : b4 < 256 := hb b4 (by simp)
  have h5 : b5 < 256 := hb b5 (by simp)
  have h6 : b6 < 256 := hb b6 (by simp)
  have h7 : b7 < 256 := hb b7 (by simp)
  have h8 : b8 < 256 := hb b8 (by simp)
  have h9 : b9 < 256 := hb b9 (by simp)
  have h10 : b10 < 256 := hb b10 (by simp)
  have h11 : b11 < 256 := hb b11 (by simp)
  have hy := bswap16_bytes b0 b1 h0 h1
  have hd := bswap16_bytes b9 b10 h9 h10
  simp only [getTime, hread, emi_clock_t.ofMemory, loadU16, byteAt, List.getD_cons_zero,
    List.getD_cons_succ, Nat.mod_eq_of_lt h0, Nat.mod_eq_of_lt h1, Nat.mod_eq_of_lt h2,
    Nat.mod_eq_of_lt h3, Nat.mod_eq_of_lt h4, Nat.mod_eq_of_lt h5, Nat.mod_eq_of_lt h6,
    Nat.mod_eq_of_lt h7, Nat.mod_eq_of_lt h8, Nat.mod_eq_of_lt h9, Nat.mod_eq_of_lt h10,
    Nat.mod_eq_of_lt h11, hy, hd]

/-- Writing the record `getTime` yields back in wire form gives the block the
read left. -/
theorem toWire_getTime {σ : Type} (read : ReadFn σ) (ctx : σ) (heap : List Nat)
    (b : List Nat) (hlen : b.length = 12) (hb : ∀ x ∈ b, x < 256)
    (hread : (read ctx 0x0001 1 sizeof_emi_clock_t heap).dest = b) :
    (getTime read ctx heap).1.toWire = b := by
  obtain ⟨b0, b1, b2, b3, b4, b5, b6, b7, b8, b9, b10, b11, rfl⟩ := list_of_length_twelve b hlen
  rw [getTime_of_dest read ctx heap b0 b1 b2 b3 b4 b5 b6 b7 b8 b9 b10 b11 hb hread]
  have h0 : b0 < 256 := hb b0 (by simp)
  have h1 : b1 < 256 := hb b1 (by simp)
  have h9 : b9 < 256 := hb b9 (by simp)
  have h10 : b10 < 256 := hb b10 (by simp)
  have e0 : (256 * b0 + b1) / 256 = b0 := by omega
  have e1 : (256 * b0 + b1) % 256 = b1 := by omega
  have e9 : (256 * b9 + b10) / 256 = b9 := by omega
  have e10 : (256 * b9 + b10) % 256 = b10 := by omega
  simp only [emi_clock_t.toWire, e0, e1, e9, e10]

/-- C15: the clock decode loses nothing: when two reads leave 12-byte blocks
`b` and `c` and `getTime` yields the same record for both, the blocks are
equal byte for byte; and writing the record back in wire form, year and
deviation big-endian, gives the block again. -/
theorem getTime_lossless {σ : Type} (read1 read2 : ReadFn σ) (ctx1 ctx2 : σ)
    (heap1 heap2 : List Nat) (b c : List Nat) (hblen : b.length = 12) (hclen : c.length = 12)
    (hb : ∀ x ∈ b, x < 256) (hc : ∀ x ∈ c, x < 256)
    (hread1 : (read1 ctx1 0x0001 1 sizeof_emi_clock_t heap1).dest = b)
    (hread2 : (read2 ctx2 0x0001 1 sizeof_emi_clock_t heap2).dest = c) :
    ((getTime read1 ctx1 heap1).1 = (getTime read2 ctx2 heap2).1 → b = c) ∧
      (getTime read1 ctx1 heap1).1.toWire = b := by
  have w1 := toWire_getTime read1 ctx1 heap1 b hblen hb hread1
  have w2 := toWire_getTime read2 ctx2 heap2 c hclen hc hread2
  refine ⟨fun h => ?_, w1⟩
  rw [← w1, ← w2, h]

/-- C15 at the block `07 E8 0A 0F 02 0E 1E 05 00 00 00 01`, left by two
reads that return different codes: the records are equal, so are the blocks,
and the record written back in wire form is the block. -/
theorem getTime_lossless_witness :
    ([0x07, 0xE8, 0x0A, 0x0F, 0x02, 0x0E, 0x1E, 0x05, 0x00, 0x00, 0x00, 0x01]
        = [0x07, 0xE8, 0x0A, 0x0F, 0x02, 0x0E, 0x1E, 0x05, 0x00, 0x00, 0x00, 0x01]) ∧
      (getTime (deliver 1 [0x07, 0xE8, 0x0A, 0x0F, 0x02, 0x0E, 0x1E, 0x05, 0x00, 0x00, 0x00, 0x01])
          () []).1.toWire
        = [0x07, 0xE8, 0x0A, 0x0F, 0x02, 0x0E, 0x1E, 0x05, 0x00, 0x00, 0x00, 0x01] :=
  ⟨(getTime_lossless
      (deliver 1 [0x07, 0xE8, 0x0A, 0x0F, 0x02, 0x0E, 0x1E, 0x05, 0x00, 0x00, 0x00, 0x01])
      (deliver 0 [0x07, 0xE8, 0x0A, 0x0F, 0x02, 0x0E, 0x1E, 0x05, 0x00, 0x00, 0x00, 0x01])
      () () [] []
      [0x07, 0xE8, 0x0A, 0x0F, 0x02, 0x0E, 0x1E, 0x05, 0x00, 0x00, 0x00, 0x01]
      [0x07, 0xE8, 0x0A, 0x0F, 0x02, 0x0E, 0x1E, 0x05, 0x00, 0x00, 0x00, 0x01]
      rfl rfl (by decide) (by decide) rfl rfl).1 (by decide),
   (getTime_lossless
      (deliver 1 [0x07, 0xE8, 0x0A, 0x0F, 0x02, 0x0E, 0x1E, 0x05, 0x00, 0x00, 0x00, 0x01])
      (deliver 0 [0x07, 0xE8, 0x0A, 0x0F, 0x02, 0x0E, 0x1E, 0x05, 0x00, 0x00, 0x00, 0x01])
      () () [] []
      [0x07, 0xE8, 0x0A, 0x0F, 0x02, 0x0E, 0x1E, 0x05, 0x00, 0x00, 0x00, 0x01]
      [0x07, 0xE8, 0x0A, 0x0F, 0x02, 0x0E, 0x1E, 0x05, 0x00, 0x00, 0x00, 0x01]
      rfl rfl (by decide) (by decide) rfl rfl).2⟩

-- ---------------------------------------------------------------------------
-- C16
-- ---------------------------------------------------------------------------

theorem Double.toRat_nonneg_of_m (d : Double) (h : 0 ≤ d.m) : 0 ≤ d.toRat := by
  have hm : (0 : ℚ) ≤ (d.m : ℚ) := by exact_mod_cast h
  have hp : (0 : ℚ) < (2 : ℚ) ^ d.e := by positivity
  exact mul_nonneg hm hp.le

theorem Double.m_nonneg_of_toRat (d : Double) (h : 0 ≤ d.toRat) : 0 ≤ d.m := by
  have hp : (0 : ℚ) < (2 : ℚ) ^ d.e := by positivity
  have hm : (0 : ℚ) ≤ (d.m : ℚ) := nonneg_of_mul_nonneg_left h hp
  exact_mod_cast hm

theorem round53_m_nonneg (M E : Int) (h : 0 ≤ M) : 0 ≤ (round53 M E).m := by
  unfold round53
  simp only
  split_ifs
  · exact h
  · exact mul_nonneg (Int.sign_nonneg.mpr h) (Int.ofNat_nonneg _)

/-- C16: the integer `getDoubleFromUInt16` passes to `scaleInt` is the
byte-swapped buffer word itself, between `0` and `65535`: the conversion to
`int` changes neither value nor sign. With scale `0` the stored value is that
integer; with any scale it is non-negative, `pow(10, s)` being non-negative. -/
theorem getDoubleFromUInt16_nonneg {σ : Type} (read : ReadFn σ)
    (pow : Double → Double → Double) (ctx : σ) (registerAddress : Nat) (s : Int)
    (buffer : List Nat) (res : Double)
    (hpow : 0 ≤ (pow (Double.ofInt 10) (Double.ofInt s)).toRat) :
    toInt (__bswap_16 (loadU16 (read ctx registerAddress 1 2 buffer).dest 0))
        = ((__bswap_16 (loadU16 (read ctx registerAddress 1 2 buffer).dest 0) : Nat) : Int) ∧
      __bswap_16 (loadU16 (read ctx registerAddress 1 2 buffer).dest 0) ≤ 65535 ∧
      0 ≤ (getDoubleFromUInt16 read pow ctx registerAddress s buffer res).res.toRat ∧
      (s = 0 →
        (getDoubleFromUInt16 read pow ctx registerAddress s buffer res).res.toRat
          = ((__bswap_16 (loadU16 (read ctx registerAddress 1 2 buffer).dest 0) : Nat) : ℚ)) := by
  have hlt := bswap16_lt (loadU16 (read ctx registerAddress 1 2 buffer).dest 0)
  have hnum := toInt_of_lt _ (show __bswap_16 (loadU16 (read ctx registerAddress 1 2 buffer).dest 0)
    < 2 ^ 31 by omega)
  have hsmall : (((__bswap_16 (loadU16 (read ctx registerAddress 1 2 buffer).dest 0) : Nat)
      : Int)).natAbs < 2 ^ 53 := by
    rw [Int.natAbs_ofNat]
    omega
  have hout : (getDoubleFromUInt16 read pow ctx registerAddress s buffer res).res
      = scaleInt pow
          ((__bswap_16 (loadU16 (read ctx registerAddress 1 2 buffer).dest 0) : Nat) : Int) s := by
    simp only [getDoubleFromUInt16, hnum]
  refine ⟨hnum, by omega, ?_, ?_⟩
  · rw [hout, scaleInt]
    split_ifs with hs
    · rw [Double.toRat_ofInt _ hsmall]
      exact_mod_cast Int.ofNat_nonneg _
    · apply Double.toRat_nonneg_of_m
      rw [Double.ofInt_of_small _ hsmall]
      exact round53_m_nonneg _ _
        (mul_nonneg (Int.ofNat_nonneg _) (Double.m_nonneg_of_toRat _ hpow))
  · intro hs
    rw [hout, scaleInt, if_pos hs, Double.toRat_ofInt _ hsmall]
    simp

/-- C16 at the wire bytes `FF FF`: with scale `-1` and a `pow` that returns
the double nearest to one tenth the stored value is non-negative, and with
scale `0` it is `65535`. -/
theorem getDoubleFromUInt16_nonneg_witness :
    0 ≤ (getDoubleFromUInt16 (deliver 1 [0xFF, 0xFF]) powTenth () 0 (-1) [0, 0]
        (Double.ofInt 0)).res.toRat ∧
      (getDoubleFromUInt16 (deliver 1 [0xFF, 0xFF]) powTenth () 0 0 [0, 0]
        (Double.ofInt 0)).res.toRat
        = ((__bswap_16 (loadU16 (deliver 1 [0xFF, 0xFF] () 0 1 2 [0, 0]).dest 0) : Nat) : ℚ) ∧
      __bswap_16 (loadU16 (deliver 1 [0xFF, 0xFF] () 0 1 2 [0, 0]).dest 0) = 65535 :=
  ⟨(getDoubleFromUInt16_nonneg (deliver 1 [0xFF, 0xFF]) powTenth () 0 (-1) [0, 0]
      (Double.ofInt 0)
      (by
        simp only [powTenth, powConst, tenth, Double.toRat]
        positivity)).2.2.1,
   (getDoubleFromUInt16_nonneg (deliver 1 [0xFF, 0xFF]) powTenth () 0 0 [0, 0]
      (Double.ofInt 0)
      (by
        simp only [powTenth, powConst, tenth, Double.toRat]
        positivity)).2.2.2 rfl,
   by decide⟩

end EmiUtils
